import Mathlib

/-!
Verification of the FASTQ utilities (`Sequencing/fastq.py`) and the
interactive plot builders (`Sequencing/Visualize/interactive/__init__.py`)
of the `hits` repository, via a shallow embedding in Lean 4.

Modelling conventions:
* Python 2 byte strings are modelled as `List Char` (read names, sequences)
  or as `List Nat` of character ordinals (quality strings), whichever the
  code manipulates.
* Python exceptions are modelled with `Except PyErr` / `Option`; a branch of
  the source that reads an unassigned local variable is modelled as
  `PyErr.unboundLocal` with the variable's name.
* Exact rational arithmetic (`ℚ`) stands in for Python float arithmetic.
-/

namespace Hits

/-- A Python runtime error relevant to the embedded code paths. -/
inductive PyErr where
  | unboundLocal : String → PyErr
  | valueError : String → PyErr
  deriving DecidableEq, Repr

instance {ε α : Type} [DecidableEq ε] [DecidableEq α] :
    DecidableEq (Except ε α) := fun x y =>
  match x, y with
  | .ok a, .ok b =>
    if h : a = b then isTrue (by rw [h])
    else isFalse (by intro hx; cases hx; exact h rfl)
  | .error a, .error b =>
    if h : a = b then isTrue (by rw [h])
    else isFalse (by intro hx; cases hx; exact h rfl)
  | .ok _, .error _ => isFalse (by intro hx; cases hx)
  | .error _, .ok _ => isFalse (by intro hx; cases hx)

/-- `Read` namedtuple from `fastq.py`: name, sequence, quality.  The quality
string is kept as the list of character ordinals, since the code only ever
uses `ord` of its characters. -/
structure Read where
  name : List Char
  seq : List Char
  qual : List Nat
  deriving DecidableEq, Repr

/-! ### FASTQ encoding and sanitization (`fastq.py` lines 11-42) -/

/-- `SANGER_OFFSET` (imported into `fastq.py` from `fastq_cython`; value 33
per the spec's constants table). -/
def SANGER_OFFSET : Nat := 33

/-- `SOLEXA_OFFSET = 64`. -/
def SOLEXA_OFFSET : Nat := 64

/-- `MAX_QUAL = 93`. -/
def MAX_QUAL : Nat := 93

/-- `MAX_EXPECTED_QUAL = 42`. -/
def MAX_EXPECTED_QUAL : Nat := 42

/-- Python 2 `chr(i)`: valid for `0 <= i <= 255`, otherwise a `ValueError`.
Modelled as `Option` on the ordinal. -/
def pyChr (i : Int) : Option Nat :=
  if 0 ≤ i ∧ i ≤ 255 then some i.toNat else none

/-- `decode_sanger(qual)`: `[ord(q) - SANGER_OFFSET for q in qual]`. -/
def decode_sanger (qual : List Nat) : List Int :=
  qual.map (fun q : Nat => (q : Int) - (SANGER_OFFSET : Int))

/-- `decode_solexa(qual)`: `[ord(q) - SOLEXA_OFFSET for q in qual]`. -/
def decode_solexa (qual : List Nat) : List Int :=
  qual.map (fun q : Nat => (q : Int) - (SOLEXA_OFFSET : Int))

/-- `encode_sanger(ints)`: `''.join(chr(i + SANGER_OFFSET) for i in ints)`;
fails like Python's `chr` outside `[0, 255]`. -/
def encode_sanger (ints : List Int) : Option (List Nat) :=
  ints.mapM (fun i => pyChr (i + (SANGER_OFFSET : Int)))

/-- `encode_solexa(ints)`: `''.join(chr(i + SOLEXA_OFFSET) for i in ints)`. -/
def encode_solexa (ints : List Int) : Option (List Nat) :=
  ints.mapM (fun i => pyChr (i + (SOLEXA_OFFSET : Int)))

/-! ### Quality-encoding detection (`fastq.py` lines 177-201)

`detect_encoding` iterates over the line groups with a `for` loop wrapped in
`try ... except StopIteration`.  In Python a `for` loop consumes the
`StopIteration` of an exhausted iterator itself, so the `except` branch
(which would set `encoding = 'SANGER'`) is unreachable; if no read is
decisive the loop falls through with the local `encoding` never assigned and
the subsequent `if encoding == 'SOLEXA'` raises `UnboundLocalError`.
The model below returns the encoding decision made by the loop, with the
fall-through modelled as the unbound-local error. -/

/-- The quality convertor chosen by `detect_encoding`. -/
inductive QualConv where
  | identity
  | solexaToSanger
  deriving DecidableEq, Repr

/-- Python `min` over a nonempty list of ordinals (`ValueError` on empty). -/
def pyMin : List Nat → Option Nat
  | [] => none
  | x :: xs => some (xs.foldl Nat.min x)

/-- Python `max` over a nonempty list of ordinals (`ValueError` on empty). -/
def pyMax : List Nat → Option Nat
  | [] => none
  | x :: xs => some (xs.foldl Nat.max x)

/-- The loop of `detect_encoding` over the quality strings of the stream:
breaks with `'SANGER'` when `min(ords) < SOLEXA_OFFSET - 5`, with `'SOLEXA'`
when `max(ords) > SANGER_OFFSET + 41`; falling off the end of the stream
leaves the local `encoding` unassigned. -/
def detect_encoding_loop : List (List Nat) → Except PyErr String
  | [] => .error (.unboundLocal "encoding")
  | q :: rest =>
    match pyMin q, pyMax q with
    | some mn, some mx =>
      if mn < SOLEXA_OFFSET - 5 then .ok "SANGER"
      else if mx > SANGER_OFFSET + 41 then .ok "SOLEXA"
      else detect_encoding_loop rest
    | _, _ => .error (.valueError "min() arg is an empty sequence")

/-- `detect_encoding`, reduced to its observable outcome: the quality
convertor it would select, or the Python error it raises. -/
def detect_encoding (quals : List (List Nat)) : Except PyErr QualConv :=
  match detect_encoding_loop quals with
  | .ok enc => .ok (if enc = "SOLEXA" then .solexaToSanger else .identity)
  | .error e => .error e

/-! ### Read-name parsing and standardization (`fastq.py` lines 215-321) -/

/-- Python `s.split(sep)` for a one-character separator, on `List Char`:
`"".split(sep) == ['']`, separators delimit possibly-empty fields. -/
def pySplitOn (sep : Char) : List Char → List (List Char)
  | [] => [[]]
  | c :: cs =>
    match pySplitOn sep cs with
    | [] => [[c]]
    | g :: gs => if c = sep then [] :: g :: gs else (c :: g) :: gs

/-- Splitting at every character satisfying `p`, keeping empty fields
(helper for Python's no-argument `split`). -/
def splitOnPred (p : Char → Bool) : List Char → List (List Char)
  | [] => [[]]
  | c :: cs =>
    match splitOnPred p cs with
    | [] => [[c]]
    | g :: gs => if p c then [] :: g :: gs else (c :: g) :: gs

/-- Python `s.split()` with no argument: split on runs of whitespace,
discarding empty fields. -/
def pySplitWs (l : List Char) : List (List Char) :=
  (splitOnPred Char.isWhitespace l).filter (· ≠ [])

/-- The parsing rule `get_read_name_parser` selects (the Python function it
returns; `none` models the `parser = None` branch for `test` names). -/
inductive NameFormat where
  | sra
  | pairedSRA
  | err
  | newIllumina
  | oldIllumina
  | unindexedOldIllumina
  | standardized
  deriving DecidableEq, Repr

/-- `get_read_name_parser(read_name)` from `fastq.py`.  In the `SRR` branch,
a dot-field count other than 2 or 3 assigns nothing to the local `parser`,
so the function's final `return parser` raises `UnboundLocalError`; the
`else` branch with an unrecognized word count raises
`ValueError('read name format not recognized - ...')`. -/
def select_read_name_format (read_name : List Char) :
    Except PyErr (Option NameFormat) :=
  if ("test".data).isPrefixOf read_name then
    .ok none
  else if ("SRR".data).isPrefixOf read_name then
    if (pySplitOn '.' read_name).length = 2 then .ok (some .sra)
    else if (pySplitOn '.' read_name).length = 3 then .ok (some .pairedSRA)
    else .error (.unboundLocal "parser")
  else if ("ERR".data).isPrefixOf read_name then
    .ok (some .err)
  else
    match (pySplitWs read_name).length with
    | 2 => .ok (some .newIllumina)
    | 1 =>
      if read_name.contains '#' then .ok (some .oldIllumina)
      else if read_name.contains '/' then .ok (some .unindexedOldIllumina)
      else .ok (some .standardized)
    | _ => .error (.valueError ("read name format not recognized - " ++
                                String.mk read_name))

/-- Python's format spec `'{0:0>w.ws}'`: truncate the string to its first
`w` characters, then right-align in width `w`, filling with `'0'` on the
left. -/
def pad_trunc (w : Nat) (s : List Char) : List Char :=
  let t := s.take w
  List.replicate (w - t.length) '0' ++ t

/-- `_standardize = '{0:0>2.2s}:{1:0>5.5s}:{2:0>6.6s}:{3:0>6.6s}'.format`.
The format string has only four placeholders, so the fifth argument
(`member`) supplied by `get_read_name_standardizer` is ignored. -/
def std_standardize (lane tile x y member : List Char) : List Char :=
  pad_trunc 2 lane ++ ':' :: pad_trunc 5 tile ++ ':' :: pad_trunc 6 x ++
    ':' :: pad_trunc 6 y

/-- The fields extracted by the Illumina-style read-name parsing functions. -/
structure IlluminaFields where
  lane : List Char
  tile : List Char
  x : List Char
  y : List Char
  member : List Char
  index : List Char
  deriving DecidableEq, Repr

/-- `parse_new_illumina_read_name`: two whitespace tokens; lane, tile, x, y
are the last four colon-fields of the first token, member and index come
from the four colon-fields of the second token.  Tuple-unpacking failures
are modelled as `none`. -/
def parse_new_illumina_read_name (read_name : List Char) :
    Option IlluminaFields :=
  match pySplitWs read_name with
  | [location_info, member_info] =>
    let fields := pySplitOn ':' location_info
    match fields.drop (fields.length - 4), pySplitOn ':' member_info with
    | [lane, tile, x, y], [member, _, _, index] =>
      some ⟨lane, tile, x, y, member, index⟩
    | _, _ => none
  | _ => none

/-- The standardizer that `get_read_name_standardizer` builds for a
new-Illumina-style first read name: parse, then `_standardize(lane, tile,
x, y, member)`. -/
def illumina_standardizer (read_name : List Char) : Option (List Char) :=
  (parse_new_illumina_read_name read_name).map fun f =>
    std_standardize f.lane f.tile f.x f.y f.member

/-- `coordinates_from_standardized`: all colon-fields except the last. -/
def coordinates_from_standardized (standardized : List Char) :
    List (List Char) :=
  (pySplitOn ':' standardized).dropLast

/-- Python `sep.join(parts)` for the one-character separator `':'`. -/
def joinColon : List (List Char) → List Char
  | [] => []
  | [g] => g
  | g :: gs => g ++ ':' :: joinColon gs

/-- `get_pair_name`: rejoin the coordinates with `':'`. -/
def get_pair_name (standardized : List Char) : List Char :=
  joinColon (coordinates_from_standardized standardized)

/-! ### Quality and complexity statistics (`fastq.py` lines 58-104) -/

/-- Python `int()` on a float: truncation toward zero. -/
def pyInt (q : ℚ) : ℤ := if 0 ≤ q then ⌊q⌋ else -⌊-q⌋

/-- Python 2 `round()`: nearest integer, halves rounded away from zero. -/
def pyRound (q : ℚ) : ℤ := if 0 ≤ q then ⌊q + 1/2⌋ else -⌊-q + 1/2⌋

/-- Modelled from the spec: `process_read` (the `accumulate` core) lives in
`fastq_cython`, which is not under `src/`.  Per the spec it decodes `qual`
with `SANGER_OFFSET`, tallies the per-position histograms, and "returns the
arithmetic mean of the decoded qualities for this read"; only the returned
mean is needed here. -/
def process_read_mean (qual : List Nat) : ℚ :=
  (((decode_sanger qual).map (fun i : Int => (i : ℚ))).sum) / (qual.length : ℚ)

/-- Increment of a counting array at index `i`
(`array[i] += 1`, on arrays modelled as counting functions). -/
def bumpAt {β : Type} [DecidableEq β] (d : β → ℕ) (i : β) : β → ℕ :=
  fun j => if j = i then d j + 1 else d j

/-- The average-quality-distribution accumulation of `quality_and_complexity`
(`fastq.py` lines 62-66): starting from a zero array, for each read
`average_q_distribution[int(average_q)] += 1`. -/
def average_q_distribution (reads : List Read) : ℤ → ℕ :=
  reads.foldl (fun d r => bumpAt d (pyInt (process_read_mean r.qual)))
    (fun _ => 0)

/-- The pair of indices used by `quality_and_complexity_paired` for one
read pair: `(int(R1_average_q), int(R2_average_q))`. -/
def joint_index (p : Read × Read) : ℤ × ℤ :=
  (pyInt (process_read_mean p.1.qual), pyInt (process_read_mean p.2.qual))

/-- `joint_average_q_distribution` rebuilt from the list of recorded
per-pair increments. -/
def joint_from_increments (acc : List (ℤ × ℤ)) : (ℤ × ℤ) → ℕ :=
  acc.foldl bumpAt (fun _ => 0)

/-- The statistics written into the caller's `results` mapping by
`quality_and_complexity_paired` at exhaustion (the entries the claims are
about; the per-position q/c arrays are independent of these). -/
structure QacResults where
  joint_average_qs : (ℤ × ℤ) → ℕ
  R1_average_qs : ℤ → ℕ
  R2_average_qs : ℤ → ℕ

/-- The `results.update` payload (`fastq.py` lines 93-104): the marginals
are `joint.sum(axis=1)` and `joint.sum(axis=0)` over the 43×43 joint
array. -/
def mkResults (acc : List (ℤ × ℤ)) : QacResults where
  joint_average_qs := joint_from_increments acc
  R1_average_qs := fun i =>
    ∑ j ∈ Finset.range (MAX_EXPECTED_QUAL + 1),
      joint_from_increments acc (i, (j : ℤ))
  R2_average_qs := fun j =>
    ∑ i ∈ Finset.range (MAX_EXPECTED_QUAL + 1),
      joint_from_increments acc ((i : ℤ), j)

/-- Generator state for `quality_and_complexity_paired`: the joint
increments recorded so far, the input pairs not yet processed, and the
caller-visible `results` mapping (`none` = not yet populated). -/
structure PairedGenState where
  acc : List (ℤ × ℤ)
  remaining : List (Read × Read)
  results : Option QacResults

/-- The generator's initial state: nothing processed, `results` untouched. -/
def qac_paired_init (pairs : List (Read × Read)) : PairedGenState :=
  ⟨[], pairs, none⟩

/-- One `next()` on the `quality_and_complexity_paired` generator: process
and yield the next pair; at exhaustion run the post-loop `results.update`
and signal `StopIteration` (the `none` output). -/
def qac_paired_next (s : PairedGenState) :
    Option (Read × Read) × PairedGenState :=
  match s.remaining with
  | [] =>
    match s.results with
    | some _ => (none, s)
    | none => (none, ⟨s.acc, [], some (mkResults s.acc)⟩)
  | p :: rest => (some p, ⟨s.acc ++ [joint_index p], rest, s.results⟩)

/-- Drive the generator `k` steps, collecting everything it yields. -/
def qac_paired_run (s : PairedGenState) :
    Nat → List (Read × Read) × PairedGenState
  | 0 => ([], s)
  | k + 1 =>
    let step := qac_paired_next s
    let rest := qac_paired_run step.2 k
    (step.1.toList ++ rest.1, rest.2)

/-! ### Scatter-plot axis ranges
(`Visualize/interactive/__init__.py` lines 113-139) -/

/-- `pandas` column max (`df.max`); the default for an empty column is
never used under the nonemptiness hypotheses of the theorems below. -/
def colMax : List ℚ → ℚ
  | [] => 0
  | x :: xs => xs.foldl max x

/-- `pandas` column min (`df.min`). -/
def colMin : List ℚ → ℚ
  | [] => 0
  | x :: xs => xs.foldl min x

/-- One axis range: the initial view passed to `Range1d` and its outer
`bounds`. -/
structure AxisRange where
  initial : ℚ × ℚ
  bounds : ℚ × ℚ
  deriving DecidableEq, Repr

/-- The two `Range1d`s installed on the figure. -/
structure ScatterRanges where
  x_range : AxisRange
  y_range : AxisRange
  deriving DecidableEq, Repr

/-- The axis-range computation of `scatter`:
`overall_max = df.max(numeric_only=True).max()`,
`overall_min = df.min(numeric_only=True).min()`,
`extent`/`overhang`/`max_overhang`, the `log_scale` split for `initial` and
`bounds`, and `fig.y_range`/`fig.x_range` both set from `initial` with
`bounds` (lines 113-126 and 138-139).  The numeric columns of `df` are the
input. -/
def scatter_ranges (numeric_cols : List (List ℚ)) (log_scale : Bool) :
    ScatterRanges :=
  let overall_max := colMax (numeric_cols.map colMax)
  let overall_min := colMin (numeric_cols.map colMin)
  let extent := overall_max - overall_min
  let overhang := extent * (5 / 100)
  let max_overhang := extent * (5 / 10)
  let initial :=
    if log_scale then (overall_min * (1 / 10), overall_max * 10)
    else (overall_min - overhang, overall_max + overhang)
  let bounds :=
    if log_scale then (overall_min * (1 / 1000), overall_max * 1000)
    else (overall_min - max_overhang, overall_max + max_overhang)
  { x_range := ⟨initial, bounds⟩, y_range := ⟨initial, bounds⟩ }

/-- The spec's wording of the log-scale extrema, for comparison with
`scatter_ranges`: "the overall numeric minimum ... restricted to positive
values when `log_scale` is set". -/
def positive_restricted_min (numeric_cols : List (List ℚ)) : ℚ :=
  colMin ((numeric_cols.flatten).filter (fun v => decide (0 < v)))

/-- Positive-restricted overall maximum, per the spec's wording. -/
def positive_restricted_max (numeric_cols : List (List ℚ)) : ℚ :=
  colMax ((numeric_cols.flatten).filter (fun v => decide (0 < v)))

/-- The log-scale ranges the claim asserts: derived from the
positive-restricted extrema. -/
def scatter_ranges_claim_log (numeric_cols : List (List ℚ)) : ScatterRanges :=
  let mn := positive_restricted_min numeric_cols
  let mx := positive_restricted_max numeric_cols
  { x_range := ⟨(mn * (1 / 10), mx * 10), (mn * (1 / 1000), mx * 1000)⟩
    y_range := ⟨(mn * (1 / 10), mx * 10), (mn * (1 / 1000), mx * 1000)⟩ }

/-! ### Metagene/metacodon profile builder
(`Visualize/interactive/__init__.py` lines 272-405) -/

/-- Insertion of one string into a `≤`-sorted list (helper for Python
`sorted`). -/
def insertSorted (a : String) : List String → List String
  | [] => [a]
  | b :: bs => if a ≤ b then a :: b :: bs else b :: insertSorted a bs

/-- Python `sorted` over strings. -/
def sortStrings (l : List String) : List String :=
  l.foldr insertSorted []

/-- One `ColumnDataSource` built by `metacodon`: its `.name`
(`'source_{checkbox}_{key}'`), its `x` column, its `y` column (the first
statistic column by sorted name), and the constant `name` column value. -/
structure SourceData where
  source_name : String
  x : List ℚ
  y : List ℚ
  series : String
  deriving DecidableEq, Repr

/-- A per-group statistics table: statistic name → column of values
(one dict of `y_by_resolution`'s values). -/
def StatTable : Type := List (String × List ℚ)

/-- Building one source (`__init__.py` lines 283-288):
`source.data['y'] = source.data[sorted(ys[resolution][checkbox_name])[0]]`
(an `IndexError` on an empty table is modelled as `none`). -/
def build_source (key checkbox : String) (xsr : List ℚ) (table : StatTable) :
    Option SourceData :=
  match sortStrings (table.map Prod.fst) with
  | [] => none
  | first :: _ =>
    match table.lookup first with
    | some col => some ⟨"source_" ++ checkbox ++ "_" ++ key, xsr, col, checkbox⟩
    | none => none

/-- The sources built for one of the keys `'plotted'`, `'codon'`,
`'nucleotide'`, iterating the groups in sorted order. -/
def metacodon_sources_for (key : String) (xsr : List ℚ)
    (ysr : List (String × StatTable)) : Option (List SourceData) :=
  (sortStrings (ysr.map Prod.fst)).mapM fun checkbox =>
    match ysr.lookup checkbox with
    | some table => build_source key checkbox xsr table
    | none => none

/-- The observable output of `metacodon` that the claims concern: the built
sources, the four `Range1d` parameters of lines 293-294, the statistic menu
options, and the checkbox column width of line 370. -/
structure MetacodonDoc where
  sources : List SourceData
  y_initial : ℚ × ℚ
  y_bounds : ℚ × ℚ
  x_initial : ℚ × ℚ
  x_bounds : ℚ × ℚ
  menu_options : List String
  checkbox_width : Nat
  deriving Repr

/-- `metacodon(xs, ys, colors, groupings)`.  Failures of the source code
(an empty statistics table at `sorted(...)[0]`, `ys['codon'].values()[0]`
with no groups, a missing `colors[checkbox_name]`, and `max()` over an
empty label sequence at line 370) are modelled as `none`. -/
def metacodon (xs_codon xs_nucleotide : List ℚ)
    (ys_codon ys_nucleotide : List (String × StatTable))
    (colors : List (String × String))
    (groupings : List (String × List String)) : Option MetacodonDoc :=
  match metacodon_sources_for "plotted" xs_codon ys_codon,
        metacodon_sources_for "codon" xs_codon ys_codon,
        metacodon_sources_for "nucleotide" xs_nucleotide ys_nucleotide with
  | some plotted, some codonSources, some nucleotideSources =>
    match (sortStrings (ys_codon.map Prod.fst)).mapM
        (fun checkbox => colors.lookup checkbox) with
    | some _ =>
      match ys_codon with
      | [] => none
      | firstGroup :: _ =>
        match sortStrings (firstGroup.2.map Prod.fst) with
        | [] => none
        | opt :: opts =>
          match (groupings.map (fun g => g.2.map String.length)).flatten with
          | [] => none
          | n :: ns =>
            some { sources := plotted ++ codonSources ++ nucleotideSources
                   y_initial := (0, 5)
                   y_bounds := (-1, 50)
                   x_initial := (-25, 25)
                   x_bounds := (-100, 100)
                   menu_options := opt :: opts
                   checkbox_width := 75 + (ns.foldl Nat.max n) * 5 }
    | none => none
  | _, _, _ => none

/-! ### Interleaved pairing (`fastq.py` lines 208-211) -/

/-- Modelled from the spec: `group_by` comes from `Sequencing/utilities`,
which is not under `src/`.  Per the spec (§4.7) interleaved pairing "groups
consecutive reads by their standardized pair-name key", i.e.
`itertools.groupby`-style grouping into maximal runs of adjacent elements
with equal key.  Each group is returned as head and tail, so groups are
nonempty by construction. -/
def group_by_key {α β : Type} [DecidableEq β] (key : α → β) :
    List α → List (α × List α)
  | [] => []
  | a :: as =>
    match group_by_key key as with
    | [] => [(a, [])]
    | (h, t) :: gs =>
      if key a = key h then (a, h :: t) :: gs else (a, []) :: (h, t) :: gs

/-- `read_pairs_interleaved` on an already-produced read sequence: group
consecutive reads by the pair name of their (standardized) names and emit
`(g[0], g[-1])` for each group. -/
def read_pairs_interleaved (reads : List Read) : List (Read × Read) :=
  (group_by_key (fun r => get_pair_name r.name) reads).map
    fun g => (g.1, g.2.getLastD g.1)

/-! ## Helper lemmas -/

lemma le_foldl_nat_min :
    ∀ (xs : List Nat) (x b : Nat), b ≤ x → (∀ c ∈ xs, b ≤ c) →
      b ≤ xs.foldl Nat.min x := by
  intro xs
  induction xs with
  | nil => intro x b hx _; simpa using hx
  | cons c cs ih =>
    intro x b hx h
    simp only [List.foldl_cons]
    exact ih _ _ (Nat.le_min.mpr ⟨hx, h c (by simp)⟩)
      (fun d hd => h d (by simp [hd]))

lemma foldl_nat_max_le :
    ∀ (xs : List Nat) (x b : Nat), x ≤ b → (∀ c ∈ xs, c ≤ b) →
      xs.foldl Nat.max x ≤ b := by
  intro xs
  induction xs with
  | nil => intro x b hx _; simpa using hx
  | cons c cs ih =>
    intro x b hx h
    simp only [List.foldl_cons]
    exact ih _ _ (Nat.max_le.mpr ⟨hx, h c (by simp)⟩)
      (fun d hd => h d (by simp [hd]))

lemma detect_encoding_loop_indecisive :
    ∀ quals : List (List Nat),
      (∀ q ∈ quals, q ≠ [] ∧ ∀ c ∈ q, 59 ≤ c ∧ c ≤ 74) →
      detect_encoding_loop quals = .error (.unboundLocal "encoding") := by
  intro quals
  induction quals with
  | nil => intro _; rfl
  | cons q rest ih =>
    intro h
    obtain ⟨hne, hq⟩ := h q (List.mem_cons_self _ _)
    match q, hne with
    | c :: cs, _ =>
      have hmin : 59 ≤ cs.foldl Nat.min c :=
        le_foldl_nat_min cs c 59 (hq c (by simp)).1
          (fun d hd => (hq d (by simp [hd])).1)
      have hmax : cs.foldl Nat.max c ≤ 74 :=
        foldl_nat_max_le cs c 74 (hq c (by simp)).2
          (fun d hd => (hq d (by simp [hd])).2)
      simp only [detect_encoding_loop, pyMin, pyMax]
      rw [if_neg (by simp only [SOLEXA_OFFSET]; omega),
          if_neg (by simp only [SANGER_OFFSET]; omega)]
      exact ih (fun q' hq' => h q' (by simp [hq']))

lemma mapM_pyChr_decode (off : Nat) :
    ∀ ints : List Int,
      (∀ i ∈ ints, 0 ≤ i + (off : Int) ∧ i + (off : Int) ≤ 255) →
      (ints.mapM (fun i => pyChr (i + (off : Int)))).map
          (List.map (fun c : Nat => (c : Int) - (off : Int))) = some ints := by
  intro ints
  induction ints with
  | nil => intro _; rfl
  | cons i is ih =>
    intro h
    have hi := h i (List.mem_cons_self _ _)
    have ihs := ih (fun j hj => h j (List.mem_cons_of_mem _ hj))
    obtain ⟨s, hs⟩ :
        ∃ s, is.mapM (fun i => pyChr (i + (off : Int))) = some s := by
      cases hmm : is.mapM (fun i => pyChr (i + (off : Int))) with
      | none => rw [hmm] at ihs; simp at ihs
      | some s => exact ⟨s, rfl⟩
    rw [hs] at ihs
    simp only [Option.map_some', Option.some.injEq] at ihs
    have hchr : pyChr (i + (off : Int)) = some (i + (off : Int)).toNat := by
      simp [pyChr, hi.1, hi.2]
    have hcons : (i :: is).mapM (fun i => pyChr (i + (off : Int)))
        = some ((i + (off : Int)).toNat :: s) := by
      rw [List.mapM_cons, hchr, hs]; rfl
    rw [hcons, Option.map_some', Option.some.injEq, List.map_cons, ihs]
    have harith : (((i + (off : Int)).toNat : Int)) - (off : Int) = i := by
      rw [Int.toNat_of_nonneg hi.1]; ring
    rw [harith]

lemma mapM_pyChr_encode_decode (off : Nat) :
    ∀ q : List Nat, (∀ c ∈ q, c ≤ 255) →
      (q.map (fun c : Nat => (c : Int) - (off : Int))).mapM
          (fun i => pyChr (i + (off : Int))) = some q := by
  intro q
  induction q with
  | nil => intro _; rfl
  | cons c cs ih =>
    intro h
    have hc : pyChr ((c : Int) - (off : Int) + (off : Int)) = some c := by
      have harith : (c : Int) - (off : Int) + (off : Int) = (c : Int) := by ring
      rw [harith]
      have hle : (c : Int) ≤ 255 := by
        exact_mod_cast h c (List.mem_cons_self _ _)
      simp [pyChr, hle]
    rw [List.map_cons, List.mapM_cons, hc,
      ih (fun d hd => h d (List.mem_cons_of_mem _ hd))]
    rfl

lemma foldl_bump_apply {α β : Type} [DecidableEq β] (idx : α → β) :
    ∀ (l : List α) (d : β → ℕ) (b : β),
      (l.foldl (fun acc a => bumpAt acc (idx a)) d) b =
        d b + (l.filter (fun a => idx a = b)).length := by
  intro l
  induction l with
  | nil => intro d b; simp
  | cons a as ih =>
    intro d b
    simp only [List.foldl_cons, List.filter_cons, ih]
    by_cases h : idx a = b
    · subst h
      simp [bumpAt]
      omega
    · have h' : ¬ b = idx a := fun hb => h hb.symm
      simp [bumpAt, h, h']

/-! ## Claims -/

/-- C1: evaluating the standardizer that name standardization selects for
the new-Illumina-style name `"INST:1:FC:1:10:100:200 1:N:0:ATCG"`.  The
claim says the result is the five-field `"01:00010:000100:000200:1"`; the
`_standardize` format string has only four placeholders, so the member
digit is dropped and the code produces `"01:00010:000100:000200"`. -/
theorem c1_standardizer_drops_member :
    illumina_standardizer ("INST:1:FC:1:10:100:200 1:N:0:ATCG".data) =
      some ("01:00010:000100:000200".data) ∧
    illumina_standardizer ("INST:1:FC:1:10:100:200 1:N:0:ATCG".data) ≠
      some ("01:00010:000100:000200:1".data) := by
  constructor
  · decide
  · decide

/-- C2: on a stream in which no read is decisive (every quality ordinal
lies in `[59, 74]`), `detect_encoding` does not assume Sanger: its `for`
loop swallows the `StopIteration` that the dead `except` branch was meant
to catch, the local `encoding` is never assigned, and the function raises
`UnboundLocalError`. -/
theorem c2_indecisive_stream_unbound_local :
    ∀ quals : List (List Nat),
      (∀ q ∈ quals, q ≠ [] ∧ ∀ c ∈ q, 59 ≤ c ∧ c ≤ 74) →
      detect_encoding quals = .error (.unboundLocal "encoding") := by
  intro quals h
  unfold detect_encoding
  rw [detect_encoding_loop_indecisive quals h]

/-- Witness for C2: a one-read stream whose only quality ordinal is 65. -/
theorem c2_witness :
    detect_encoding [[65]] = .error (.unboundLocal "encoding") :=
  c2_indecisive_stream_unbound_local [[65]] (by decide)

/-- C3: an SRR-prefixed name with four dot-separated fields makes read-name
parser selection fail, but with an unbound-local error at `return parser`
(the SRR branch assigns no parser for this field count), not with the
`ValueError('read name format not recognized - ...')` the claim names. -/
theorem c3_srr_four_fields_unbound_local :
    (pySplitOn '.' ("SRR1.2.3.4".data)).length = 4 ∧
    select_read_name_format ("SRR1.2.3.4".data) =
      .error (.unboundLocal "parser") ∧
    select_read_name_format ("SRR1.2.3.4".data) ≠
      .error (.valueError ("read name format not recognized - SRR1.2.3.4")) := by
  refine ⟨by decide, by decide, by decide⟩

/-- C8: the Sanger and Solexa quality encode/decode round-trips, for
integer lists in the valid quality range `[0, MAX_QUAL]` and for strings of
valid quality characters. -/
theorem c8_quality_roundtrips :
    (∀ ints : List Int, (∀ i ∈ ints, 0 ≤ i ∧ i ≤ 93) →
      (encode_sanger ints).map decode_sanger = some ints) ∧
    (∀ q : List Nat, (∀ c ∈ q, 33 ≤ c ∧ c ≤ 126) →
      encode_sanger (decode_sanger q) = some q) ∧
    (∀ ints : List Int, (∀ i ∈ ints, 0 ≤ i ∧ i ≤ 93) →
      (encode_solexa ints).map decode_solexa = some ints) ∧
    (∀ q : List Nat, (∀ c ∈ q, 33 ≤ c ∧ c ≤ 126) →
      encode_solexa (decode_solexa q) = some q) := by
  refine ⟨fun ints h => ?_, fun q h => ?_, fun ints h => ?_, fun q h => ?_⟩
  · exact mapM_pyChr_decode SANGER_OFFSET ints (fun i hi => by
      have hb := h i hi
      have hoff : (SANGER_OFFSET : Int) = 33 := rfl
      omega)
  · exact mapM_pyChr_encode_decode SANGER_OFFSET q
      (fun c hc => by have := h c hc; omega)
  · exact mapM_pyChr_decode SOLEXA_OFFSET ints (fun i hi => by
      have hb := h i hi
      have hoff : (SOLEXA_OFFSET : Int) = 64 := rfl
      omega)
  · exact mapM_pyChr_encode_decode SOLEXA_OFFSET q
      (fun c hc => by have := h c hc; omega)

/-- Witness for C8: each round-trip at a concrete quality list. -/
theorem c8_witness :
    (encode_sanger [0, 40]).map decode_sanger = some [0, 40] ∧
    encode_sanger (decode_sanger [33, 73]) = some [33, 73] ∧
    (encode_solexa [0, 40]).map decode_solexa = some [0, 40] ∧
    encode_solexa (decode_solexa [64, 104]) = some [64, 104] :=
  ⟨c8_quality_roundtrips.1 [0, 40] (by decide),
   c8_quality_roundtrips.2.1 [33, 73] (by decide),
   c8_quality_roundtrips.2.2.1 [0, 40] (by decide),
   c8_quality_roundtrips.2.2.2 [64, 104] (by decide)⟩

/-- C10: whenever a read forms a contiguous pair-name group of size 1,
`read_pairs_interleaved` yields `(g[0], g[-1])` for that group, i.e. that
very read as both mates. -/
theorem c10_singleton_group_self_pair :
    ∀ (reads : List Read) (r : Read),
      (r, ([] : List Read)) ∈
          group_by_key (fun x => get_pair_name x.name) reads →
      (r, r) ∈ read_pairs_interleaved reads := by
  intro reads r h
  have hmem := List.mem_map_of_mem
    (fun g : Read × List Read => (g.1, g.2.getLastD g.1)) h
  simpa [read_pairs_interleaved] using hmem

/-- Witness for C10: a one-read stream with a standardized name; the single
read is its own group and is returned as both mates. -/
theorem c10_witness :
    (⟨"01:00010:000100:000200:1".data, "A".data, [40]⟩,
     (⟨"01:00010:000100:000200:1".data, "A".data, [40]⟩ : Read)) ∈
      read_pairs_interleaved
        [⟨"01:00010:000100:000200:1".data, "A".data, [40]⟩] :=
  c10_singleton_group_self_pair _ _ (by decide)

/-- The partial runs of the paired generator: while `k` yields remain to be
consumed, the outputs are the first `k` input pairs unchanged and `results`
is still unpopulated. -/
lemma qac_run_partial :
    ∀ (k : ℕ) (acc : List (ℤ × ℤ)) (rem : List (Read × Read)),
      k ≤ rem.length →
      qac_paired_run ⟨acc, rem, none⟩ k =
        (rem.take k,
         ⟨acc ++ (rem.take k).map joint_index, rem.drop k, none⟩) := by
  intro k
  induction k with
  | zero => intro acc rem _; simp [qac_paired_run]
  | succ k ih =>
    intro acc rem h
    match rem with
    | [] => simp at h
    | p :: rest =>
      have h' : k ≤ rest.length := by simpa using h
      simp only [qac_paired_run, qac_paired_next]
      rw [ih (acc ++ [joint_index p]) rest h']
      simp [List.append_assoc]

/-- One unfolding step of `qac_paired_run`. -/
lemma qac_run_succ (s : PairedGenState) (k : ℕ) :
    qac_paired_run s (k + 1) =
      ((qac_paired_next s).1.toList ++
         (qac_paired_run (qac_paired_next s).2 k).1,
       (qac_paired_run (qac_paired_next s).2 k).2) := rfl

/-- Driving the paired generator one step past its last yield runs the
post-loop `results.update`. -/
lemma qac_run_full :
    ∀ (rem : List (Read × Read)) (acc : List (ℤ × ℤ)),
      qac_paired_run ⟨acc, rem, none⟩ (rem.length + 1) =
        (rem, ⟨acc ++ rem.map joint_index, [],
               some (mkResults (acc ++ rem.map joint_index))⟩) := by
  intro rem
  induction rem with
  | nil => intro acc; simp [qac_paired_run, qac_paired_next]
  | cons p rest ih =>
    intro acc
    have hstep : qac_paired_next ⟨acc, p :: rest, none⟩ =
        (some p, ⟨acc ++ [joint_index p], rest, none⟩) := rfl
    show qac_paired_run _ (rest.length + 1 + 1) = _
    rw [qac_run_succ, hstep]
    rw [ih (acc ++ [joint_index p])]
    simp [List.append_assoc]

/-- C4 counterexample: a read whose two quality ordinals are 34 and 35
decodes to qualities 1 and 2, with mean 3/2.  `round` gives bucket 2, but
`quality_and_complexity` increments bucket `int(3/2) = 1`; bucket 2 stays
at 0. -/
theorem c4_counterexample_half_mean :
    pyRound (process_read_mean [34, 35]) = 2 ∧
    pyInt (process_read_mean [34, 35]) = 1 ∧
    average_q_distribution [⟨"r".data, "AC".data, [34, 35]⟩] 2 = 0 ∧
    average_q_distribution [⟨"r".data, "AC".data, [34, 35]⟩] 1 = 1 := by
  refine ⟨?_, ?_, ?_, ?_⟩ <;>
    norm_num [pyRound, pyInt, average_q_distribution, bumpAt,
      process_read_mean, decode_sanger, SANGER_OFFSET]

/-- C4 amended: for every read the bucket incremented by
`quality_and_complexity` is `int(mean_quality)` — the Sanger-decoded mean
truncated toward zero, not rounded to nearest — and likewise each pair
increments the joint bucket `(int(R1 mean), int(R2 mean))` in
`quality_and_complexity_paired`. -/
theorem c4_bucket_is_truncated_mean :
    (∀ (reads : List Read) (b : ℤ),
      average_q_distribution reads b =
        (reads.filter
          (fun r => pyInt (process_read_mean r.qual) = b)).length) ∧
    (∀ (pairs : List (Read × Read)) (ij : ℤ × ℤ),
      joint_from_increments (pairs.map joint_index) ij =
        (pairs.filter (fun p => joint_index p = ij)).length) := by
  constructor
  · intro reads b
    unfold average_q_distribution
    have h := foldl_bump_apply (fun r => pyInt (process_read_mean r.qual))
      reads (fun _ => 0) b
    simpa using h
  · intro pairs ij
    unfold joint_from_increments
    rw [List.foldl_map]
    have h := foldl_bump_apply joint_index pairs (fun _ => 0) ij
    simpa using h

/-- C5: the paired statistics generator yields each input pair unchanged,
leaves the caller's `results` mapping unpopulated until the yielded
sequence has been fully consumed, and then writes results in which the
`R1`/`R2` average-quality marginals are the row/column sums of the joint
distribution. -/
theorem c5_paired_generator_contract :
    ∀ pairs : List (Read × Read),
      (∀ k, k ≤ pairs.length →
        (qac_paired_run (qac_paired_init pairs) k).1 = pairs.take k ∧
        (qac_paired_run (qac_paired_init pairs) k).2.results = none) ∧
      (qac_paired_run (qac_paired_init pairs) (pairs.length + 1)).1 =
        pairs ∧
      (qac_paired_run (qac_paired_init pairs) (pairs.length + 1)).2.results
        = some (mkResults (pairs.map joint_index)) ∧
      (∀ i, (mkResults (pairs.map joint_index)).R1_average_qs i =
        ∑ j ∈ Finset.range (MAX_EXPECTED_QUAL + 1),
          (mkResults (pairs.map joint_index)).joint_average_qs (i, (j : ℤ)))
      ∧
      (∀ j, (mkResults (pairs.map joint_index)).R2_average_qs j =
        ∑ i ∈ Finset.range (MAX_EXPECTED_QUAL + 1),
          (mkResults (pairs.map joint_index)).joint_average_qs ((i : ℤ), j))
      := by
  intro pairs
  have hfull := qac_run_full pairs []
  simp only [List.nil_append] at hfull
  refine ⟨fun k hk => ?_, ?_, ?_, fun i => rfl, fun j => rfl⟩
  · rw [qac_paired_init, qac_run_partial k [] pairs hk]
    exact ⟨rfl, rfl⟩
  · rw [qac_paired_init, hfull]
  · rw [qac_paired_init, hfull]

/-- Witness for C5: a concrete one-pair stream, consumed partially (one
yield: pair re-yielded, results still unset) and fully. -/
theorem c5_witness :
    ((qac_paired_run
        (qac_paired_init [(⟨"a".data, "A".data, [73]⟩,
                           ⟨"b".data, "C".data, [53]⟩)]) 1).1 =
      [(⟨"a".data, "A".data, [73]⟩, ⟨"b".data, "C".data, [53]⟩)].take 1 ∧
     (qac_paired_run
        (qac_paired_init [(⟨"a".data, "A".data, [73]⟩,
                           ⟨"b".data, "C".data, [53]⟩)]) 1).2.results =
      none) ∧
    (qac_paired_run
        (qac_paired_init [(⟨"a".data, "A".data, [73]⟩,
                           ⟨"b".data, "C".data, [53]⟩)]) 2).2.results =
      some (mkResults
        ([(⟨"a".data, "A".data, [73]⟩,
           ⟨"b".data, "C".data, [53]⟩)].map joint_index)) :=
  ⟨(c5_paired_generator_contract _).1 1 (by decide),
   (c5_paired_generator_contract _).2.2.1⟩

lemma foldl_max_mem (xs : List ℚ) : ∀ a : ℚ, xs.foldl max a ∈ a :: xs := by
  induction xs with
  | nil => intro a; simp
  | cons c cs ih =>
    intro a
    simp only [List.foldl_cons]
    have h := ih (max a c)
    rcases List.mem_cons.mp h with h1 | h1
    · rw [h1]
      rcases max_choice a c with hc | hc <;> rw [hc] <;> simp
    · simp [h1]

lemma self_le_foldl_max (xs : List ℚ) : ∀ a : ℚ, a ≤ xs.foldl max a := by
  induction xs with
  | nil => intro a; simp
  | cons c cs ih =>
    intro a
    exact le_trans (le_max_left a c) (ih (max a c))

lemma le_foldl_max (xs : List ℚ) :
    ∀ (a x : ℚ), x ∈ a :: xs → x ≤ xs.foldl max a := by
  induction xs with
  | nil =>
    intro a x h
    have hx : x = a := by simpa using h
    simp [hx]
  | cons c cs ih =>
    intro a x h
    rcases List.mem_cons.mp h with rfl | h1
    · exact le_trans (le_max_left x c) (self_le_foldl_max cs _)
    rcases List.mem_cons.mp h1 with rfl | h2
    · exact le_trans (le_max_right a x) (self_le_foldl_max cs _)
    · exact ih (max a c) x (List.mem_cons_of_mem _ h2)

lemma foldl_min_mem (xs : List ℚ) : ∀ a : ℚ, xs.foldl min a ∈ a :: xs := by
  induction xs with
  | nil => intro a; simp
  | cons c cs ih =>
    intro a
    simp only [List.foldl_cons]
    have h := ih (min a c)
    rcases List.mem_cons.mp h with h1 | h1
    · rw [h1]
      rcases min_choice a c with hc | hc <;> rw [hc] <;> simp
    · simp [h1]

lemma foldl_min_le_self (xs : List ℚ) : ∀ a : ℚ, xs.foldl min a ≤ a := by
  induction xs with
  | nil => intro a; simp
  | cons c cs ih =>
    intro a
    exact le_trans (ih (min a c)) (min_le_left a c)

lemma foldl_min_le (xs : List ℚ) :
    ∀ (a x : ℚ), x ∈ a :: xs → xs.foldl min a ≤ x := by
  induction xs with
  | nil =>
    intro a x h
    have hx : x = a := by simpa using h
    simp [hx]
  | cons c cs ih =>
    intro a x h
    rcases List.mem_cons.mp h with rfl | h1
    · exact le_trans (foldl_min_le_self cs _) (min_le_left x c)
    rcases List.mem_cons.mp h1 with rfl | h2
    · exact le_trans (foldl_min_le_self cs _) (min_le_right a x)
    · exact ih (min a c) x (List.mem_cons_of_mem _ h2)

lemma colMax_mem {c : List ℚ} (h : c ≠ []) : colMax c ∈ c := by
  match c, h with
  | x :: xs, _ => exact foldl_max_mem xs x

lemma le_colMax {c : List ℚ} {x : ℚ} (h : x ∈ c) : x ≤ colMax c := by
  match c, h with
  | y :: ys, h => exact le_foldl_max ys y x h

lemma colMin_mem {c : List ℚ} (h : c ≠ []) : colMin c ∈ c := by
  match c, h with
  | x :: xs, _ => exact foldl_min_mem xs x

lemma colMin_le {c : List ℚ} {x : ℚ} (h : x ∈ c) : colMin c ≤ x := by
  match c, h with
  | y :: ys, h => exact foldl_min_le ys y x h

/-- `df.max(numeric_only=True).max()` is the overall maximum of the numeric
data, characterized as an upper bound attained in the table. -/
lemma colMax_map_eq {cols : List (List ℚ)} {M : ℚ}
    (hmem : M ∈ cols.flatten) (hub : ∀ v ∈ cols.flatten, v ≤ M)
    (hne : ∀ c ∈ cols, c ≠ []) :
    colMax (cols.map colMax) = M := by
  have hcolsne : cols ≠ [] := by rintro rfl; simp at hmem
  have hmapne : cols.map colMax ≠ [] := by
    simpa using hcolsne
  apply le_antisymm
  · have h1 := colMax_mem hmapne
    obtain ⟨c, hc, hceq⟩ := List.mem_map.mp h1
    rw [← hceq]
    exact hub _ (List.mem_flatten.mpr ⟨c, hc, colMax_mem (hne c hc)⟩)
  · obtain ⟨c, hc, hMc⟩ := List.mem_flatten.mp hmem
    exact le_trans (le_colMax hMc)
      (le_colMax (List.mem_map_of_mem colMax hc))

/-- `df.min(numeric_only=True).min()` is the overall minimum. -/
lemma colMin_map_eq {cols : List (List ℚ)} {m : ℚ}
    (hmem : m ∈ cols.flatten) (hlb : ∀ v ∈ cols.flatten, m ≤ v)
    (hne : ∀ c ∈ cols, c ≠ []) :
    colMin (cols.map colMin) = m := by
  have hcolsne : cols ≠ [] := by rintro rfl; simp at hmem
  have hmapne : cols.map colMin ≠ [] := by
    simpa using hcolsne
  apply le_antisymm
  · obtain ⟨c, hc, hmc⟩ := List.mem_flatten.mp hmem
    exact le_trans (colMin_le (List.mem_map_of_mem colMin hc))
      (colMin_le hmc)
  · have h1 := colMin_mem hmapne
    obtain ⟨c, hc, hceq⟩ := List.mem_map.mp h1
    rw [← hceq]
    exact hlb _ (List.mem_flatten.mpr ⟨c, hc, colMin_mem (hne c hc)⟩)

/-- C6 counterexample: a table whose numeric data is `{-1, 10}`, with
`log_scale` set.  The claim's positive-restricted extrema would give the
initial view `(1, 100)`; the code uses the overall minimum `-1` and
produces `(-1/10, 100)`. -/
theorem c6_counterexample_nonpositive :
    scatter_ranges [[-1, 10]] true ≠ scatter_ranges_claim_log [[-1, 10]] ∧
    (scatter_ranges [[-1, 10]] true).x_range.initial = (-(1/10 : ℚ), 100) ∧
    (scatter_ranges_claim_log [[-1, 10]]).x_range.initial = (1, 100) := by
  refine ⟨?_, ?_, ?_⟩ <;>
    · simp only [scatter_ranges, scatter_ranges_claim_log,
        positive_restricted_min, positive_restricted_max, colMax, colMin,
        List.map, List.flatten, List.filter]
      norm_num [AxisRange.mk.injEq, ScatterRanges.mk.injEq]

/-- C6 amended: with `log_scale` set, the scatter builder's extrema are the
overall numeric minimum and maximum — with no restriction to positive
values — and the initial view is `(min/10, max*10)` with outer bound
`(min/1000, max*1000)` on both axes. -/
theorem c6_log_ranges_overall_extrema :
    ∀ (numeric_cols : List (List ℚ)) (m M : ℚ),
      m ∈ numeric_cols.flatten →
      (∀ v ∈ numeric_cols.flatten, m ≤ v) →
      M ∈ numeric_cols.flatten →
      (∀ v ∈ numeric_cols.flatten, v ≤ M) →
      (∀ c ∈ numeric_cols, c ≠ []) →
      scatter_ranges numeric_cols true =
        ⟨⟨(m * (1 / 10), M * 10), (m * (1 / 1000), M * 1000)⟩,
         ⟨(m * (1 / 10), M * 10), (m * (1 / 1000), M * 1000)⟩⟩ := by
  intro cols m M hm hml hM hMu hne
  have h1 := colMax_map_eq hM hMu hne
  have h2 := colMin_map_eq hm hml hne
  simp only [scatter_ranges, h1, h2, if_true]

/-- Witness for C6: the table `{-1, 10}` under `log_scale`. -/
theorem c6_witness :
    scatter_ranges [[-1, 10]] true =
      ⟨⟨(-(1/10 : ℚ), 100), (-(1/1000 : ℚ), 10000)⟩,
       ⟨(-(1/10 : ℚ), 100), (-(1/1000 : ℚ), 10000)⟩⟩ := by
  have h := c6_log_ranges_overall_extrema [[-1, 10]] (-1) 10
    (by simp) (by intro v hv; simp at hv; rcases hv with rfl | rfl <;> norm_num)
    (by simp) (by intro v hv; simp at hv; rcases hv with rfl | rfl <;> norm_num)
    (by simp)
  rw [h]
  norm_num [AxisRange.mk.injEq, ScatterRanges.mk.injEq]

/-- C7: with `log_scale` false, the initial view is
`(min − 0.05·extent, max + 0.05·extent)` and the outer bound
`(min − 0.5·extent, max + 0.5·extent)`, identically on both axes. -/
theorem c7_linear_ranges :
    ∀ (numeric_cols : List (List ℚ)) (m M : ℚ),
      m ∈ numeric_cols.flatten →
      (∀ v ∈ numeric_cols.flatten, m ≤ v) →
      M ∈ numeric_cols.flatten →
      (∀ v ∈ numeric_cols.flatten, v ≤ M) →
      (∀ c ∈ numeric_cols, c ≠ []) →
      scatter_ranges numeric_cols false =
        ⟨⟨(m - (M - m) * (5 / 100), M + (M - m) * (5 / 100)),
          (m - (M - m) * (5 / 10), M + (M - m) * (5 / 10))⟩,
         ⟨(m - (M - m) * (5 / 100), M + (M - m) * (5 / 100)),
          (m - (M - m) * (5 / 10), M + (M - m) * (5 / 10))⟩⟩ := by
  intro cols m M hm hml hM hMu hne
  have h1 := colMax_map_eq hM hMu hne
  have h2 := colMin_map_eq hm hml hne
  simp only [scatter_ranges, h1, h2, Bool.false_eq_true, if_false]

/-- Witness for C7: numeric columns spanning 0 to 10 give the initial view
`(-0.5, 10.5)` and outer bound `(-5, 15)`. -/
theorem c7_witness :
    scatter_ranges [[0, 10], [5, 7]] false =
      ⟨⟨(-(1/2 : ℚ), 21/2), (-5, 15)⟩, ⟨(-(1/2 : ℚ), 21/2), (-5, 15)⟩⟩ := by
  have h := c7_linear_ranges [[0, 10], [5, 7]] 0 10
    (by simp)
    (by intro v hv; simp at hv; rcases hv with rfl | rfl | rfl | rfl <;>
      norm_num)
    (by simp)
    (by intro v hv; simp at hv; rcases hv with rfl | rfl | rfl | rfl <;>
      norm_num)
    (by simp)
  rw [h]
  norm_num [AxisRange.mk.injEq, ScatterRanges.mk.injEq]

/-- C9: whatever inputs `metacodon` succeeds on, the built figure's ranges
are the constants of lines 293-294: Y initial `[0, 5]` bounded to
`[-1, 50]`, X initial `[-25, 25]` bounded to `[-100, 100]`. -/
theorem c9_metacodon_fixed_ranges :
    ∀ (xs_codon xs_nucleotide : List ℚ)
      (ys_codon ys_nucleotide : List (String × StatTable))
      (colors : List (String × String))
      (groupings : List (String × List String)) (d : MetacodonDoc),
      metacodon xs_codon xs_nucleotide ys_codon ys_nucleotide colors
          groupings = some d →
      d.y_initial = (0, 5) ∧ d.y_bounds = (-1, 50) ∧
      d.x_initial = (-25, 25) ∧ d.x_bounds = (-100, 100) := by
  intro xs_codon xs_nucleotide ys_codon ys_nucleotide colors groupings d h
  unfold metacodon at h
  repeat' split at h
  all_goals cases h
  all_goals exact ⟨rfl, rfl, rfl, rfl⟩

/-- Witness for C9: a concrete one-group input on which `metacodon`
succeeds with the fixed ranges. -/
theorem c9_witness :
    (⟨[⟨"source_g_plotted", [0], [1], "g"⟩,
       ⟨"source_g_codon", [0], [1], "g"⟩,
       ⟨"source_g_nucleotide", [0], [1], "g"⟩],
      (0, 5), (-1, 50), (-25, 25), (-100, 100), ["s"], 80⟩
        : MetacodonDoc).y_initial = (0, 5) ∧
    (⟨[⟨"source_g_plotted", [0], [1], "g"⟩,
       ⟨"source_g_codon", [0], [1], "g"⟩,
       ⟨"source_g_nucleotide", [0], [1], "g"⟩],
      (0, 5), (-1, 50), (-25, 25), (-100, 100), ["s"], 80⟩
        : MetacodonDoc).y_bounds = (-1, 50) ∧
    (⟨[⟨"source_g_plotted", [0], [1], "g"⟩,
       ⟨"source_g_codon", [0], [1], "g"⟩,
       ⟨"source_g_nucleotide", [0], [1], "g"⟩],
      (0, 5), (-1, 50), (-25, 25), (-100, 100), ["s"], 80⟩
        : MetacodonDoc).x_initial = (-25, 25) ∧
    (⟨[⟨"source_g_plotted", [0], [1], "g"⟩,
       ⟨"source_g_codon", [0], [1], "g"⟩,
       ⟨"source_g_nucleotide", [0], [1], "g"⟩],
      (0, 5), (-1, 50), (-25, 25), (-100, 100), ["s"], 80⟩
        : MetacodonDoc).x_bounds = (-100, 100) :=
  c9_metacodon_fixed_ranges [0] [0] [("g", [("s", [1])])]
    [("g", [("s", [1])])] [("g", "k")] [("top", ["g"])] _ rfl

end Hits
